import Mathlib

/-!
Verification of the Topo market-strain analytics core.

This file gives a shallow embedding of the numeric pipeline implemented in
`src/cpp` (correlation estimation, graph/Laplacian construction, spectral
diffusion, strain aggregation, and the eta-calibration search of
`tune_eta.cpp`) and proves the specified properties about it.

Modelling conventions:
* Floating-point doubles are embedded as exact real numbers wherever a value
  only flows through arithmetic; checks of the form `std::isnan || std::isinf`
  are vacuous in that embedding and are noted where they occur in the source.
* Where a claim is about the validity checks themselves (which inputs are
  rejected as NaN/Inf), doubles are embedded as the four-state type `Fp`
  (finite rational, NaN, +Inf, -Inf) so the checks are meaningful.
* The Eigen `SelfAdjointEigenSolver` is an external library call; its result is
  modelled by passing the eigendecomposition into the embedded function, with
  the solver's mathematical contract (orthogonal eigenvector matrix, real
  eigenvalues) taken as a hypothesis.
* The flat row-major `std::vector<double>` matrices with their size-validation
  preludes are modelled by dependently sized types `Fin n → Fin n → ℝ` except
  where a claim is about the size checks, in which case `List` lengths are used.
* C++ `throw std::runtime_error` is modelled by `Except.error` / `Option.some`.
-/

namespace Topo

/-- Model of an IEEE-754 double used by the validity-checking claims: either a
finite value (carried exactly as a rational) or one of the non-finite states
NaN, +Inf, -Inf.  Arithmetic is performed only on values already checked
finite, so non-finite arithmetic never needs to be evaluated. -/
inductive Fp where
  | fin (value : ℚ)
  | nan
  | pinf
  | ninf
deriving DecidableEq

/-- The function `is_finite` of tune_eta.cpp and the `isnan/isinf` checks of diffusion.cpp
and strain.cpp: `!(std::isnan(v) || std::isinf(v))`. -/
def Fp.is_finite : Fp → Bool
  | .fin _ => true
  | _ => false

/-- Validation prelude of `diffuse_returns` (diffusion.cpp, lines 51-59).
`validate_square_matrix_size_or_throw(laplacian)`,
`validate_vector_size_or_throw(latest_return)` and
`validate_finite_or_throw(diffusion_eta)` run, in this order, before any
numeric work; `some msg` models the thrown `std::runtime_error`.  No other
validation runs before the eigensolver is invoked: in particular the entries
of `laplacian` and `latest_return` are never tested for finiteness. -/
def diffuse_returns_input_validation (laplacian latest_return : List Fp)
    (number_of_assets : ℕ) (diffusion_eta : Fp) : Option String :=
  if laplacian.length ≠ number_of_assets * number_of_assets then
    some "laplacian must have size N*N"
  else if latest_return.length ≠ number_of_assets then
    some "latest_return must have size N"
  else if diffusion_eta.is_finite then none
  else some "diffusion_eta must be finite (not NaN/Inf)"

/-- Embedding of `compute_strain_index` (strain.cpp, lines 8-52).  The four numeric inputs
are modelled as `Fp` so the finiteness checks are meaningful; the
caller-supplied coefficients only take part in arithmetic and are carried as
exact rationals.  The final NaN/Inf check on the computed strain
(strain.cpp, lines 47-49) cannot fire in exact arithmetic on finite inputs
and is noted here rather than modelled. -/
def compute_strain_index (l2_return_magnitude systemic_ratio wasserstein_distance
    total_persistence : Fp)
    (coefficient_a coefficient_b coefficient_c coefficient_d : ℚ) : Except String ℚ :=
  if ¬ l2_return_magnitude.is_finite then Except.error "l2_return_magnitude must be finite"
  else if ¬ systemic_ratio.is_finite then Except.error "systemic_ratio must be finite"
  else if ¬ wasserstein_distance.is_finite then Except.error "wasserstein_distance must be finite"
  else if ¬ total_persistence.is_finite then Except.error "total_persistence must be finite"
  else
    match l2_return_magnitude, systemic_ratio, wasserstein_distance, total_persistence with
    | Fp.fin l2, Fp.fin sr, Fp.fin wd, Fp.fin tp =>
      if l2 < 0 then Except.error "l2_return_magnitude must be >= 0"
      else if wd < 0 then Except.error "wasserstein_distance must be >= 0"
      else if tp < 0 then Except.error "total_persistence must be >= 0"
      else Except.ok (coefficient_a * l2 + coefficient_b * sr +
        coefficient_c * wd + coefficient_d * tp)
    | _, _, _, _ => Except.error "unreachable: all inputs checked finite"

/-- Embedding of `build_weighted_graph` (graph.cpp, lines 30-59): weighted adjacency with a
zero diagonal and `std::max(correlation, 0.0)` off the diagonal.  The
row-major flat vector and its N-by-N size validation are modelled by the
index types. -/
noncomputable def build_weighted_graph {n : ℕ}
    (correlation_matrix : Matrix (Fin n) (Fin n) ℝ) : Matrix (Fin n) (Fin n) ℝ :=
  fun i j => if i = j then 0 else max (correlation_matrix i j) 0

/-- Embedding of `compute_laplacian` (graph.cpp, lines 61-97): diagonal entry is the full
row sum of the adjacency (the degree), off-diagonal entries are the negated
adjacency entries. -/
noncomputable def compute_laplacian {n : ℕ}
    (weighted_adjacency : Matrix (Fin n) (Fin n) ℝ) : Matrix (Fin n) (Fin n) ℝ :=
  fun i j => if i = j then ∑ k, weighted_adjacency i k else -(weighted_adjacency i j)

/-- Per-asset sample mean of a return window (correlation.cpp, line 32). -/
noncomputable def asset_mean {m n : ℕ} (returns : Fin m → Fin n → ℝ) (i : Fin n) : ℝ :=
  (∑ t, returns t i) / m

/-- Centered return entry (correlation.cpp, line 35). -/
noncomputable def centered_return {m n : ℕ} (returns : Fin m → Fin n → ℝ)
    (t : Fin m) (i : Fin n) : ℝ :=
  returns t i - asset_mean returns i

/-- Sample covariance `(1/(m-1)) Xᵀ X` of the centered window
(correlation.cpp, lines 40-41). -/
noncomputable def covariance_matrix {m n : ℕ} (returns : Fin m → Fin n → ℝ) :
    Matrix (Fin n) (Fin n) ℝ :=
  fun i j => (∑ t, centered_return returns t i * centered_return returns t j) / ((m : ℝ) - 1)

/-- Per-asset standard deviation, the square root of the covariance diagonal
(correlation.cpp, line 44). -/
noncomputable def standard_deviation {m n : ℕ} (returns : Fin m → Fin n → ℝ) (i : Fin n) : ℝ :=
  Real.sqrt (covariance_matrix returns i i)

/-- Correlation entry as first computed (correlation.cpp, lines 50-61), before
the diagonal is forced to exactly 1.0: divide by `std_i * std_j` when that
denominator exceeds `1e-10`, otherwise use 1 on the diagonal and 0 off it. -/
noncomputable def correlation_raw {m n : ℕ} (returns : Fin m → Fin n → ℝ) :
    Matrix (Fin n) (Fin n) ℝ :=
  fun i j =>
    if 1 / 10 ^ 10 < standard_deviation returns i * standard_deviation returns j then
      covariance_matrix returns i j /
        (standard_deviation returns i * standard_deviation returns j)
    else if i = j then 1 else 0

/-- Embedding of `compute_correlation` (correlation.cpp, lines 8-78): the raw correlation
with the diagonal then forced to exactly 1.0 (lines 64-66).  The size and
window-length validations are modelled by the index types and the `2 ≤ m`
hypotheses of the theorems below. -/
noncomputable def compute_correlation {m n : ℕ} (returns : Fin m → Fin n → ℝ) :
    Matrix (Fin n) (Fin n) ℝ :=
  fun i j => if i = j then 1 else correlation_raw returns i j

/-- Numeric core of `diffuse_returns` (diffusion.cpp, lines 82-115).  The Eigen
`SelfAdjointEigenSolver` call is external; it is modelled by passing in the
decomposition it returns - the eigenvector matrix `Q` (columns are
eigenvectors) and the eigenvalues - with the solver's contract
(`Qᵀ Q = 1`, `L = Q diag(lam) Qᵀ`) assumed by the theorems.  The steps follow
the source: project `y = Qᵀ r`, scale `y_i` by `exp(-eta * lam_i)`,
reconstruct `s = Q y`. -/
noncomputable def diffuse_returns {n : ℕ} (eigenvectors : Matrix (Fin n) (Fin n) ℝ)
    (eigenvalues : Fin n → ℝ) (latest_return : Fin n → ℝ) (diffusion_eta : ℝ) :
    Fin n → ℝ :=
  eigenvectors.mulVec fun i =>
    eigenvectors.transpose.mulVec latest_return i *
      Real.exp (-diffusion_eta * eigenvalues i)

/-- Embedding of `compute_systemic_ratio` (diffusion.cpp, lines 118-153): ratio of the two
Euclidean norms, defined as exactly 0 when the latest-return norm is 0.  The
equal-length check is modelled by the index types; the per-entry NaN/Inf
checks are vacuous in exact real arithmetic. -/
noncomputable def compute_systemic_ratio {n : ℕ}
    (smoothed_return latest_return : Fin n → ℝ) : ℝ :=
  if Real.sqrt (∑ i, latest_return i * latest_return i) = 0 then 0
  else
    Real.sqrt (∑ i, smoothed_return i * smoothed_return i) /
      Real.sqrt (∑ i, latest_return i * latest_return i)

/-- Embedding of `SmoothnessCache` (tune_eta.cpp, lines 41-46): per historical sample, the
Laplacian eigenvalues, the squared eigenbasis projections of the latest
return, and the unsmoothed return norm.  The `parquet_path` label is omitted
as it takes no part in the numerics. -/
structure SmoothnessCache where
  eigenvalues : List ℝ
  projected_return_squared : List ℝ
  latest_return_norm : ℝ

/-- Smoothed sum of squares `Σ_k exp(-2 eta lam_k) proj²_k` of one cached
sample (tune_eta.cpp, lines 377-382). -/
noncomputable def smoothed_sum_squares (cache : SmoothnessCache) (diffusion_eta : ℝ) : ℝ :=
  ((cache.eigenvalues.zip cache.projected_return_squared).map
    fun p => Real.exp (-2 * diffusion_eta * p.1) * p.2).sum

/-- Smoothness of one cached sample (tune_eta.cpp, lines 369-392): defined as
0 when the stored latest-return norm is 0, otherwise
`sqrt(max(0, smoothed_sum_squares)) / latest_return_norm`.  The NaN check on
the quotient is vacuous in exact real arithmetic. -/
noncomputable def sample_smoothness (cache : SmoothnessCache) (diffusion_eta : ℝ) : ℝ :=
  if cache.latest_return_norm = 0 then 0
  else Real.sqrt (max 0 (smoothed_sum_squares cache diffusion_eta)) / cache.latest_return_norm

/-- The average smoothness value over all cached samples
(tune_eta.cpp, lines 395-403). -/
noncomputable def average_smoothness_value (caches : List SmoothnessCache)
    (diffusion_eta : ℝ) : ℝ :=
  ((caches.map fun cache => sample_smoothness cache diffusion_eta).sum) / caches.length

/-- Embedding of `compute_average_smoothness_cached` (tune_eta.cpp, lines 354-404), with its
entry guard on `diffusion_eta` (the finiteness half of the guard is vacuous
over ℝ).  Every sample contributes to the sum; none is skipped. -/
noncomputable def compute_average_smoothness_cached (caches : List SmoothnessCache)
    (diffusion_eta : ℝ) : Except String ℝ :=
  if diffusion_eta < 0 then Except.error "diffusion_eta must be finite and >= 0"
  else Except.ok (average_smoothness_value caches diffusion_eta)

/-- Exponential bracket search of `calibrate_eta_for_smoothness_range`
(tune_eta.cpp, lines 471-477): double the upper eta until its average
smoothness is at or below the target upper bound, or the cap is reached.
The C++ `while` loop terminates because `upper` doubles toward the cap; the
embedding makes that bound explicit as `fuel`. -/
noncomputable def double_upper (caches : List SmoothnessCache)
    (target_upper eta_upper_max : ℝ) : ℕ → ℝ → ℝ
  | 0, upper_eta => upper_eta
  | fuel + 1, upper_eta =>
    if upper_eta < eta_upper_max then
      if average_smoothness_value caches upper_eta ≤ target_upper then upper_eta
      else double_upper caches target_upper eta_upper_max fuel (upper_eta * 2)
    else upper_eta

/-- Bisection loop of `calibrate_eta_for_smoothness_range`
(tune_eta.cpp, lines 482-492): a fixed number of iterations; at each midpoint
move the lower bound up if the smoothness is above the target upper bound,
else move the upper bound down.  The returned value is the final upper bound,
which is what the source reads out after the loop. -/
noncomputable def bisect_upper (caches : List SmoothnessCache) (target_upper : ℝ) :
    ℕ → ℝ → ℝ → ℝ
  | 0, _, upper_eta => upper_eta
  | k + 1, lower_eta, upper_eta =>
    if target_upper < average_smoothness_value caches (0.5 * (lower_eta + upper_eta)) then
      bisect_upper caches target_upper k (0.5 * (lower_eta + upper_eta)) upper_eta
    else
      bisect_upper caches target_upper k lower_eta (0.5 * (lower_eta + upper_eta))

/-- Embedding of `calibrate_eta_for_smoothness_range` (tune_eta.cpp, lines 416-500).
All parameter validations are kept in source order (the finiteness halves of
the checks are vacuous over ℝ); every smoothness evaluation inside the search
passes a nonnegative eta, so `compute_average_smoothness_cached` is inlined
as its `average_smoothness_value` payload (see
`compute_average_smoothness_cached_nonneg` below). -/
noncomputable def calibrate_eta_for_smoothness_range (caches : List SmoothnessCache)
    (target_lower target_upper tolerance eta_lower_start eta_upper_start
     eta_upper_max : ℝ) (max_iterations : ℤ) (fuel : ℕ) : Except String ℝ :=
  if target_lower < 0 ∨ 1 < target_upper ∨ target_upper < target_lower then
    Except.error "target range must satisfy 0 <= lower <= upper <= 1"
  else if tolerance ≤ 0 then Except.error "tol must be > 0"
  else if eta_lower_start < 0 then Except.error "eta_lower_start must be >= 0"
  else if eta_upper_start ≤ 0 then Except.error "eta_upper_start must be > 0"
  else if eta_upper_max ≤ eta_upper_start then
    Except.error "eta_upper_max must be > eta_upper_start"
  else if max_iterations ≤ 0 then Except.error "max_iterations must be > 0"
  else
    if target_lower ≤ average_smoothness_value caches 0 ∧
        average_smoothness_value caches 0 ≤ target_upper then Except.ok 0
    else if average_smoothness_value caches 0 < target_lower then Except.ok 0
    else if eta_upper_start ≤ eta_lower_start then
      Except.error "eta_upper_start must be > eta_lower_start"
    else
      let lower_eta_1 : ℝ :=
        if average_smoothness_value caches eta_lower_start ≤ target_upper then 0
        else eta_lower_start
      let upper_eta_1 : ℝ :=
        if average_smoothness_value caches eta_lower_start ≤ target_upper then eta_lower_start
        else eta_upper_start
      let upper_eta_2 := double_upper caches target_upper eta_upper_max fuel upper_eta_1
      let upper_eta_3 := if eta_upper_max < upper_eta_2 then eta_upper_max else upper_eta_2
      let eta := bisect_upper caches target_upper max_iterations.toNat lower_eta_1 upper_eta_3
      if average_smoothness_value caches eta + tolerance < target_lower then
        Except.error "No eta found in target range within tolerance"
      else Except.ok eta

/-- A one-sample cache with a single zero eigenvalue, unit projected mass and
unit return norm: its smoothness is 1 at every eta, so no diffusion strength
can pull the average below a target upper bound less than 1.  Used as the
concrete input of several theorems below. -/
def constant_smoothness_cache : SmoothnessCache :=
  { eigenvalues := [0], projected_return_squared := [1], latest_return_norm := 1 }

/-- Multiplication by a matrix with orthonormal columns preserves the dot
product; this is the contract of the symmetric eigensolver's eigenvector
matrix. -/
lemma mulVec_dot_mulVec {n : ℕ} (Q : Matrix (Fin n) (Fin n) ℝ)
    (hQ : Q.transpose * Q = 1) (a b : Fin n → ℝ) :
    Matrix.dotProduct (Q.mulVec a) (Q.mulVec b) = Matrix.dotProduct a b := by
  rw [Matrix.dotProduct_mulVec, ← Matrix.vecMul_transpose, Matrix.vecMul_vecMul, hQ,
    Matrix.vecMul_one]

/-- Orthogonal projection preserves the sum of squares. -/
lemma sum_sq_mulVec {n : ℕ} (Q : Matrix (Fin n) (Fin n) ℝ)
    (hQ : Q.transpose * Q = 1) (v : Fin n → ℝ) :
    ∑ i, Q.mulVec v i * Q.mulVec v i = ∑ i, v i * v i :=
  mulVec_dot_mulVec Q hQ v v

/-- The eigenvalues delivered by the solver for a positive-semidefinite matrix
are nonnegative. -/
lemma eigenvalue_nonneg_of_psd {n : ℕ} (laplacian Q : Matrix (Fin n) (Fin n) ℝ)
    (lam : Fin n → ℝ) (hQ : Q.transpose * Q = 1)
    (hL : laplacian = Q * Matrix.diagonal lam * Q.transpose)
    (hpsd : ∀ x : Fin n → ℝ, 0 ≤ Matrix.dotProduct x (laplacian.mulVec x)) (i : Fin n) :
    0 ≤ lam i := by
  have hx := hpsd (Q.mulVec (Pi.single i 1))
  have hmat : Q * Matrix.diagonal lam * Q.transpose * Q = Q * Matrix.diagonal lam := by
    rw [Matrix.mul_assoc (Q * Matrix.diagonal lam), hQ, Matrix.mul_one]
  have hvec : laplacian.mulVec (Q.mulVec (Pi.single i 1))
      = Q.mulVec ((Matrix.diagonal lam).mulVec (Pi.single i 1)) := by
    rw [hL, Matrix.mulVec_mulVec, hmat, ← Matrix.mulVec_mulVec]
  have hdot : Matrix.dotProduct (Q.mulVec (Pi.single i 1))
      (laplacian.mulVec (Q.mulVec (Pi.single i 1))) = lam i := by
    rw [hvec, mulVec_dot_mulVec Q hQ, Matrix.diagonal_mulVec_single,
      Matrix.dotProduct_single]
    simp
  rw [hdot] at hx
  exact hx

/-- C1: for every eigendecomposition the solver can return (orthogonal
eigenvector matrix) and every return vector, `diffuse_returns` at
`diffusion_eta = 0` reproduces the return vector exactly in the
real-arithmetic embedding: diffusion with eta = 0 is the identity. -/
theorem diffuse_returns_eta_zero_identity {n : ℕ}
    (eigenvectors : Matrix (Fin n) (Fin n) ℝ) (eigenvalues : Fin n → ℝ)
    (latest_return : Fin n → ℝ)
    (hQ : eigenvectors * eigenvectors.transpose = 1) :
    diffuse_returns eigenvectors eigenvalues latest_return 0 = latest_return := by
  unfold diffuse_returns
  have hscale : (fun i => eigenvectors.transpose.mulVec latest_return i *
      Real.exp (-(0 : ℝ) * eigenvalues i)) =
      eigenvectors.transpose.mulVec latest_return := by
    funext i
    simp
  rw [hscale, Matrix.mulVec_mulVec, hQ, Matrix.one_mulVec]

/-- Witness for C1 at a concrete eigendecomposition and return vector. -/
theorem diffuse_returns_eta_zero_identity_witness :
    ((1 : Matrix (Fin 1) (Fin 1) ℝ) * (1 : Matrix (Fin 1) (Fin 1) ℝ).transpose = 1) ∧
      diffuse_returns (1 : Matrix (Fin 1) (Fin 1) ℝ) (fun _ => 0) (fun _ => 2) 0 =
        (fun _ => 2) := by
  have horth : (1 : Matrix (Fin 1) (Fin 1) ℝ) * (1 : Matrix (Fin 1) (Fin 1) ℝ).transpose
      = 1 := by
    simp
  exact ⟨horth, diffuse_returns_eta_zero_identity 1 (fun _ => 0) (fun _ => 2) horth⟩

/-- C5: for every eta ≥ 0, every symmetric positive-semidefinite laplacian
(given to the diffuser through the eigendecomposition the solver returns for
it) and every return vector, the systemic ratio of the diffused vector against
the raw vector is at most 1, and it is exactly 0 when the return vector is
zero. -/
theorem systemic_ratio_le_one_of_psd {n : ℕ}
    (laplacian Q : Matrix (Fin n) (Fin n) ℝ) (lam : Fin n → ℝ)
    (latest_return : Fin n → ℝ) (eta : ℝ)
    (hQ : Q.transpose * Q = 1)
    (hL : laplacian = Q * Matrix.diagonal lam * Q.transpose)
    (hpsd : ∀ x : Fin n → ℝ, 0 ≤ Matrix.dotProduct x (laplacian.mulVec x))
    (heta : 0 ≤ eta) :
    compute_systemic_ratio (diffuse_returns Q lam latest_return eta) latest_return ≤ 1 ∧
      (latest_return = 0 →
        compute_systemic_ratio (diffuse_returns Q lam latest_return eta) latest_return
          = 0) := by
  have hQQt : Q * Q.transpose = 1 := Matrix.mul_eq_one_comm.mp hQ
  have hQtQ : Q.transpose.transpose * Q.transpose = 1 := by
    rw [Matrix.transpose_transpose]
    exact hQQt
  have hlam : ∀ i, 0 ≤ lam i := eigenvalue_nonneg_of_psd laplacian Q lam hQ hL hpsd
  set y := Q.transpose.mulVec latest_return with hy
  have hsmooth : ∑ i, diffuse_returns Q lam latest_return eta i *
      diffuse_returns Q lam latest_return eta i ≤
      ∑ i, latest_return i * latest_return i := by
    have h1 : ∑ i, diffuse_returns Q lam latest_return eta i *
        diffuse_returns Q lam latest_return eta i =
        ∑ i, (y i * Real.exp (-eta * lam i)) * (y i * Real.exp (-eta * lam i)) := by
      unfold diffuse_returns
      exact sum_sq_mulVec Q hQ _
    have h2 : ∑ i, (y i * Real.exp (-eta * lam i)) * (y i * Real.exp (-eta * lam i)) ≤
        ∑ i, y i * y i := by
      apply Finset.sum_le_sum
      intro i _
      have hexp : Real.exp (-eta * lam i) ≤ 1 := by
        rw [Real.exp_le_one_iff]
        have := mul_nonneg heta (hlam i)
        linarith
      have hexp0 : 0 ≤ Real.exp (-eta * lam i) := (Real.exp_pos _).le
      calc (y i * Real.exp (-eta * lam i)) * (y i * Real.exp (-eta * lam i))
          = (y i * y i) * (Real.exp (-eta * lam i) * Real.exp (-eta * lam i)) := by ring
        _ ≤ (y i * y i) * 1 := by
            apply mul_le_mul_of_nonneg_left _ (mul_self_nonneg (y i))
            exact mul_le_one₀ hexp hexp0 hexp
        _ = y i * y i := mul_one _
    have h3 : ∑ i, y i * y i = ∑ i, latest_return i * latest_return i := by
      rw [hy]
      exact sum_sq_mulVec Q.transpose hQtQ latest_return
    calc ∑ i, diffuse_returns Q lam latest_return eta i *
          diffuse_returns Q lam latest_return eta i
        = ∑ i, (y i * Real.exp (-eta * lam i)) * (y i * Real.exp (-eta * lam i)) := h1
      _ ≤ ∑ i, y i * y i := h2
      _ = ∑ i, latest_return i * latest_return i := h3
  constructor
  · unfold compute_systemic_ratio
    by_cases hz : Real.sqrt (∑ i, latest_return i * latest_return i) = 0
    · rw [if_pos hz]
      exact zero_le_one
    · rw [if_neg hz]
      have hRnn : 0 ≤ Real.sqrt (∑ i, latest_return i * latest_return i) :=
        Real.sqrt_nonneg _
      have hRpos : 0 < Real.sqrt (∑ i, latest_return i * latest_return i) :=
        lt_of_le_of_ne hRnn (Ne.symm hz)
      rw [div_le_one hRpos]
      exact Real.sqrt_le_sqrt hsmooth
  · intro hr
    unfold compute_systemic_ratio
    rw [if_pos]
    rw [hr]
    simp

/-- Witness for C5 at the zero laplacian on one asset, eta = 0, return (1). -/
theorem systemic_ratio_le_one_of_psd_witness :
    compute_systemic_ratio
      (diffuse_returns (1 : Matrix (Fin 1) (Fin 1) ℝ) (fun _ => 0) (fun _ => 1) 0)
      (fun _ => 1) ≤ 1 := by
  have h := systemic_ratio_le_one_of_psd (0 : Matrix (Fin 1) (Fin 1) ℝ) 1 (fun _ => 0)
    (fun _ => 1) 0 (by simp) (by simp [Matrix.diagonal]; ext i j; simp)
    (fun x => by simp) (le_refl 0)
  exact h.1

/-- C6: For every N x N correlation matrix, every row of the Laplacian
`compute_laplacian (build_weighted_graph C)` sums exactly to 0: the diagonal
degree entry cancels the sum of the negated off-diagonal entries because the
adjacency diagonal is zero. -/
theorem laplacian_row_sums_zero {n : ℕ} (correlation_matrix : Matrix (Fin n) (Fin n) ℝ)
    (i : Fin n) :
    ∑ j, compute_laplacian (build_weighted_graph correlation_matrix) i j = 0 := by
  classical
  set W := build_weighted_graph correlation_matrix with hW
  have hdiag : W i i = 0 := by simp [hW, build_weighted_graph]
  have h1 : ∑ j, compute_laplacian W i j
      = compute_laplacian W i i + ∑ j ∈ Finset.univ.erase i, compute_laplacian W i j :=
    (Finset.add_sum_erase _ _ (Finset.mem_univ i)).symm
  have h2 : compute_laplacian W i i = ∑ k, W i k := by simp [compute_laplacian]
  have h3 : ∀ j ∈ Finset.univ.erase i, compute_laplacian W i j = -(W i j) := by
    intro j hj
    have hne : i ≠ j := fun h => (Finset.mem_erase.mp hj).1 h.symm
    simp [compute_laplacian, hne]
  have h4 : ∑ k, W i k = ∑ k ∈ Finset.univ.erase i, W i k := by
    rw [← Finset.add_sum_erase _ _ (Finset.mem_univ i), hdiag, zero_add]
  rw [h1, h2, Finset.sum_congr rfl h3, h4]
  simp

/-- The covariance matrix is symmetric. -/
lemma covariance_matrix_symm {m n : ℕ} (returns : Fin m → Fin n → ℝ) (i j : Fin n) :
    covariance_matrix returns i j = covariance_matrix returns j i := by
  unfold covariance_matrix
  congr 1
  exact Finset.sum_congr rfl fun t _ => mul_comm _ _

/-- The covariance diagonal is nonnegative for windows of length at least 2. -/
lemma covariance_diag_nonneg {m n : ℕ} (returns : Fin m → Fin n → ℝ) (hm : 2 ≤ m)
    (i : Fin n) : 0 ≤ covariance_matrix returns i i := by
  have hm1 : (0 : ℝ) ≤ (m : ℝ) - 1 := by
    have h2 : (2 : ℝ) ≤ (m : ℝ) := by exact_mod_cast hm
    linarith
  exact div_nonneg (Finset.sum_nonneg fun t _ => mul_self_nonneg _) hm1

/-- Cauchy-Schwarz for the sample covariance: the square of an off-diagonal
entry is at most the product of the corresponding diagonal entries. -/
lemma covariance_sq_le {m n : ℕ} (returns : Fin m → Fin n → ℝ) (hm : 2 ≤ m) (i j : Fin n) :
    covariance_matrix returns i j ^ 2 ≤
      covariance_matrix returns i i * covariance_matrix returns j j := by
  have hm1 : (0 : ℝ) < (m : ℝ) - 1 := by
    have h2 : (2 : ℝ) ≤ (m : ℝ) := by exact_mod_cast hm
    linarith
  have hcs := Finset.sum_mul_sq_le_sq_mul_sq Finset.univ
    (fun t => centered_return returns t i) (fun t => centered_return returns t j)
  unfold covariance_matrix
  rw [div_pow, div_mul_div_comm, ← sq]
  have hd : (0 : ℝ) < ((m : ℝ) - 1) ^ 2 := by positivity
  rw [div_le_div_iff₀ hd hd]
  calc (∑ t, centered_return returns t i * centered_return returns t j) ^ 2 * ((m:ℝ) - 1) ^ 2
      ≤ ((∑ t, centered_return returns t i ^ 2) * ∑ t, centered_return returns t j ^ 2) *
        ((m:ℝ) - 1) ^ 2 := by
        apply mul_le_mul_of_nonneg_right hcs (le_of_lt hd)
    _ = ((∑ t, centered_return returns t i * centered_return returns t i) *
        ∑ t, centered_return returns t j * centered_return returns t j) *
        ((m:ℝ) - 1) ^ 2 := by
        congr 2
        · exact Finset.sum_congr rfl fun t _ => pow_two _
        · exact Finset.sum_congr rfl fun t _ => pow_two _

/-- The absolute off-diagonal covariance is bounded by the product of
standard deviations. -/
lemma abs_covariance_le {m n : ℕ} (returns : Fin m → Fin n → ℝ) (hm : 2 ≤ m) (i j : Fin n) :
    |covariance_matrix returns i j| ≤
      standard_deviation returns i * standard_deviation returns j := by
  have h1 : |covariance_matrix returns i j|
      = Real.sqrt (covariance_matrix returns i j ^ 2) := (Real.sqrt_sq_eq_abs _).symm
  rw [h1]
  unfold standard_deviation
  rw [← Real.sqrt_mul (covariance_diag_nonneg returns hm i)]
  exact Real.sqrt_le_sqrt (covariance_sq_le returns hm i j)

/-- C7: for every return window with at least 2 rows, `compute_correlation`
is symmetric, has diagonal exactly 1, has every entry in [-1, 1], and defines
near-zero-variance entries (denominator at most 1e-10) as 0 off the diagonal. -/
theorem compute_correlation_props {m n : ℕ} (returns : Fin m → Fin n → ℝ) (hm : 2 ≤ m) :
    (∀ i j, compute_correlation returns i j = compute_correlation returns j i) ∧
    (∀ i, compute_correlation returns i i = 1) ∧
    (∀ i j, -1 ≤ compute_correlation returns i j ∧ compute_correlation returns i j ≤ 1) ∧
    (∀ i j, i ≠ j →
      standard_deviation returns i * standard_deviation returns j ≤ 1 / 10 ^ 10 →
      compute_correlation returns i j = 0) := by
  refine ⟨?_, ?_, ?_, ?_⟩
  · intro i j
    unfold compute_correlation correlation_raw
    by_cases hij : i = j
    · simp [hij]
    · have hji : ¬ j = i := fun h => hij h.symm
      rw [if_neg hij, if_neg hji, mul_comm (standard_deviation returns j),
        covariance_matrix_symm returns j i]
      by_cases hden : 1 / 10 ^ 10 <
          standard_deviation returns i * standard_deviation returns j
      · rw [if_pos hden, if_pos hden]
      · rw [if_neg hden, if_neg hden, if_neg hij, if_neg hji]
  · intro i
    unfold compute_correlation
    rw [if_pos rfl]
  · intro i j
    unfold compute_correlation
    by_cases hij : i = j
    · rw [if_pos hij]
      norm_num
    · rw [if_neg hij]
      unfold correlation_raw
      by_cases hden : 1 / 10 ^ 10 <
          standard_deviation returns i * standard_deviation returns j
      · rw [if_pos hden]
        have hpos : (0 : ℝ) < standard_deviation returns i * standard_deviation returns j := by
          have : (0 : ℝ) < 1 / 10 ^ 10 := by norm_num
          linarith
        have habs := abs_covariance_le returns hm i j
        have hq : |covariance_matrix returns i j /
            (standard_deviation returns i * standard_deviation returns j)| ≤ 1 := by
          rw [abs_div, abs_of_pos hpos]
          rw [div_le_one hpos]
          exact habs
        exact abs_le.mp hq
      · rw [if_neg hden, if_neg hij]
        norm_num
  · intro i j hij hden
    unfold compute_correlation correlation_raw
    rw [if_neg hij, if_neg (not_lt.mpr hden), if_neg hij]

/-- Witness for C7 on a concrete 2 x 2 zero-return window (the
near-zero-variance path). -/
theorem compute_correlation_props_witness :
    compute_correlation (fun _ : Fin 2 => fun _ : Fin 2 => (0 : ℝ)) 0 0 = 1 ∧
      compute_correlation (fun _ : Fin 2 => fun _ : Fin 2 => (0 : ℝ)) 0 1 = 0 := by
  constructor
  · exact (compute_correlation_props (fun _ : Fin 2 => fun _ : Fin 2 => (0 : ℝ))
      (le_refl 2)).2.1 0
  · apply (compute_correlation_props (fun _ : Fin 2 => fun _ : Fin 2 => (0 : ℝ))
      (le_refl 2)).2.2.2 0 1 (by decide)
    have hstd : standard_deviation (fun _ : Fin 2 => fun _ : Fin 2 => (0 : ℝ)) =
        fun _ => 0 := by
      funext k
      simp [standard_deviation, covariance_matrix, centered_return, asset_mean]
    rw [hstd]
    norm_num

/-- C3 (amended): the validation prelude of `diffuse_returns` raises an
invalid-input error exactly when the laplacian does not have N*N entries, the
return vector does not have N entries, or `diffusion_eta` is non-finite; the
entries of the laplacian and of the return vector are never themselves checked
for finiteness. -/
theorem diffuse_returns_validation_iff (laplacian latest_return : List Fp)
    (number_of_assets : ℕ) (diffusion_eta : Fp) :
    (∃ msg, diffuse_returns_input_validation laplacian latest_return number_of_assets
        diffusion_eta = some msg) ↔
      (laplacian.length ≠ number_of_assets * number_of_assets ∨
       latest_return.length ≠ number_of_assets ∨ diffusion_eta.is_finite = false) := by
  unfold diffuse_returns_input_validation
  split_ifs with h1 h2 h3 <;> simp_all

/-- C3 counterexample: with a NaN entry in the laplacian, correct sizes, and a
finite eta, `diffuse_returns` raises no invalid-input error - its validation
prelude passes - refuting the claim that non-finite entries of L (or r) are
rejected as invalid input. -/
theorem diffuse_returns_nan_entry_passes_validation :
    (Fp.nan).is_finite = false ∧
      diffuse_returns_input_validation [Fp.nan] [Fp.fin 0] 1 (Fp.fin 0) = none := by
  exact ⟨rfl, rfl⟩

/-- C8: `compute_strain_index` errors whenever any of the four inputs is
non-finite; errors - never clamps - whenever the return magnitude, Wasserstein
distance, or total persistence is negative; and otherwise returns exactly
`a*l2 + b*systemic_ratio + c*wasserstein + d*total_persistence`. -/
theorem compute_strain_index_spec :
    (∀ l2 sr wd tp a b c d : ℚ, 0 ≤ l2 → 0 ≤ wd → 0 ≤ tp →
      compute_strain_index (Fp.fin l2) (Fp.fin sr) (Fp.fin wd) (Fp.fin tp) a b c d =
        Except.ok (a * l2 + b * sr + c * wd + d * tp)) ∧
    (∀ l2 sr wd tp a b c d : ℚ, (l2 < 0 ∨ wd < 0 ∨ tp < 0) →
      ∃ msg, compute_strain_index (Fp.fin l2) (Fp.fin sr) (Fp.fin wd) (Fp.fin tp) a b c d =
        Except.error msg) ∧
    (∀ l2v srv wdv tpv : Fp, ∀ a b c d : ℚ,
      (l2v.is_finite = false ∨ srv.is_finite = false ∨ wdv.is_finite = false ∨
        tpv.is_finite = false) →
      ∃ msg, compute_strain_index l2v srv wdv tpv a b c d = Except.error msg) := by
  refine ⟨?_, ?_, ?_⟩
  · intro l2 sr wd tp a b c d h1 h2 h3
    simp [compute_strain_index, Fp.is_finite, not_lt.mpr h1, not_lt.mpr h2, not_lt.mpr h3]
  · intro l2 sr wd tp a b c d h
    unfold compute_strain_index
    simp only [Fp.is_finite, Bool.not_true, not_true_eq_false, if_false, not_false_eq_true]
    split_ifs with hA hB hC
    · exact ⟨_, rfl⟩
    · exact ⟨_, rfl⟩
    · exact ⟨_, rfl⟩
    · rcases h with h | h | h
      · exact absurd h (not_lt.mpr (not_lt.mp hA))
      · exact absurd h (not_lt.mpr (not_lt.mp hB))
      · exact absurd h (not_lt.mpr (not_lt.mp hC))
  · intro l2v srv wdv tpv a b c d h
    cases l2v <;> cases srv <;> cases wdv <;> cases tpv <;>
      simp_all [compute_strain_index, Fp.is_finite]

/-- Witness for C8: at concrete finite nonnegative inputs the strain is the
exact linear combination. -/
theorem compute_strain_index_spec_witness :
    compute_strain_index (Fp.fin 1) (Fp.fin 2) (Fp.fin 3) (Fp.fin 4) 1 1 1 1 =
      Except.ok 10 := by
  have h := compute_strain_index_spec.1 1 2 3 4 1 1 1 1 (by norm_num) (by norm_num)
    (by norm_num)
  norm_num at h
  exact h

/-- The constant cache has smoothness exactly 1 at every diffusion strength. -/
lemma average_smoothness_constant_cache (diffusion_eta : ℝ) :
    average_smoothness_value [constant_smoothness_cache] diffusion_eta = 1 := by
  unfold average_smoothness_value sample_smoothness smoothed_sum_squares
    constant_smoothness_cache
  norm_num [Real.exp_zero, Real.sqrt_one]

/-- C10: `compute_average_smoothness_cached` is total on zero-return samples:
a cached sample whose stored latest-return norm is 0 has its smoothness
defined as exactly 0, and the call returns the average over every cached
sample - no error is raised, no division by the zero norm occurs, and no
sample is skipped. -/
theorem zero_norm_sample_total (caches : List SmoothnessCache) (diffusion_eta : ℝ)
    (heta : 0 ≤ diffusion_eta) (cache : SmoothnessCache) (_hmem : cache ∈ caches)
    (hnorm : cache.latest_return_norm = 0) :
    sample_smoothness cache diffusion_eta = 0 ∧
      compute_average_smoothness_cached caches diffusion_eta =
        Except.ok (((caches.map fun c => sample_smoothness c diffusion_eta).sum) /
          caches.length) := by
  constructor
  · unfold sample_smoothness
    rw [if_pos hnorm]
  · unfold compute_average_smoothness_cached average_smoothness_value
    rw [if_neg (not_lt.mpr heta)]

/-- Witness for C10 at a concrete one-sample cache set with zero return
norm. -/
theorem zero_norm_sample_total_witness :
    sample_smoothness ⟨[], [], 0⟩ 0 = 0 ∧
      compute_average_smoothness_cached [(⟨[], [], 0⟩ : SmoothnessCache)] 0 =
        Except.ok ((([(⟨[], [], 0⟩ : SmoothnessCache)].map
          fun c => sample_smoothness c 0).sum) /
            ([(⟨[], [], 0⟩ : SmoothnessCache)] : List SmoothnessCache).length) :=
  zero_norm_sample_total [⟨[], [], 0⟩] 0 le_rfl ⟨[], [], 0⟩ (List.mem_singleton.mpr rfl) rfl

/-- C9 (amended): `calibrate_eta_for_smoothness_range` validates all numeric
parameters before any smoothness evaluation and fails with a validation error
on any violation; the seed validations accept any `eta_lower_start ≥ 0` (zero
included) and require `eta_upper_start > 0`. -/
theorem calibrate_param_validation (caches : List SmoothnessCache)
    (target_lower target_upper tolerance eta_lower_start eta_upper_start
     eta_upper_max : ℝ) (max_iterations : ℤ) (fuel : ℕ)
    (hbad : target_lower < 0 ∨ 1 < target_upper ∨ target_upper < target_lower ∨
      tolerance ≤ 0 ∨ eta_lower_start < 0 ∨ eta_upper_start ≤ 0 ∨
      eta_upper_max ≤ eta_upper_start ∨ max_iterations ≤ 0) :
    ∃ msg, calibrate_eta_for_smoothness_range caches target_lower target_upper tolerance
      eta_lower_start eta_upper_start eta_upper_max max_iterations fuel =
        Except.error msg := by
  unfold calibrate_eta_for_smoothness_range
  by_cases h1 : target_lower < 0 ∨ 1 < target_upper ∨ target_upper < target_lower
  · rw [if_pos h1]
    exact ⟨_, rfl⟩
  rw [if_neg h1]
  by_cases h2 : tolerance ≤ 0
  · rw [if_pos h2]
    exact ⟨_, rfl⟩
  rw [if_neg h2]
  by_cases h3 : eta_lower_start < 0
  · rw [if_pos h3]
    exact ⟨_, rfl⟩
  rw [if_neg h3]
  by_cases h4 : eta_upper_start ≤ 0
  · rw [if_pos h4]
    exact ⟨_, rfl⟩
  rw [if_neg h4]
  by_cases h5 : eta_upper_max ≤ eta_upper_start
  · rw [if_pos h5]
    exact ⟨_, rfl⟩
  rw [if_neg h5]
  by_cases h6 : max_iterations ≤ 0
  · rw [if_pos h6]
    exact ⟨_, rfl⟩
  exfalso
  tauto

/-- Witness for C9's amended validation theorem: a non-positive tolerance is
rejected before any search. -/
theorem calibrate_param_validation_witness :
    ∃ msg, calibrate_eta_for_smoothness_range [] (6/10) (8/10) 0 (1/1000) (7/1000) 64
      20 0 = Except.error msg :=
  calibrate_param_validation [] (6/10) (8/10) 0 (1/1000) (7/1000) 64 20 0 (by norm_num)

/-- C9 counterexample: a call with `eta_lower_start = 0` (not strictly
positive) and otherwise valid parameters does not fail with a validation
error: the baseline is evaluated and the calibration returns eta = 0, refuting
the claim that non-strictly-positive search seeds are rejected.  (The code
validates `eta_lower_start < 0`, accepting zero.) -/
theorem calibrate_zero_lower_seed_accepted :
    calibrate_eta_for_smoothness_range [constant_smoothness_cache] (9/10) 1 (1/100) 0
      (7/1000) 64 20 0 = Except.ok 0 := by
  unfold calibrate_eta_for_smoothness_range
  rw [if_neg (by norm_num), if_neg (by norm_num : ¬ ((1:ℝ)/100 ≤ 0)),
    if_neg (by norm_num : ¬ ((0:ℝ) < 0)), if_neg (by norm_num : ¬ ((7:ℝ)/1000 ≤ 0)),
    if_neg (by norm_num : ¬ ((64:ℝ) ≤ 7/1000)), if_neg (by norm_num : ¬ ((20:ℤ) ≤ 0))]
  have hb : (9/10 : ℝ) ≤ average_smoothness_value [constant_smoothness_cache] 0 ∧
      average_smoothness_value [constant_smoothness_cache] 0 ≤ 1 := by
    rw [average_smoothness_constant_cache]
    norm_num
  rw [if_pos hb]

/-- C4: with valid parameters and a non-empty cache set, if the average
smoothness at eta = 0 already lies inside the target band, or already lies
below the lower target, `calibrate_eta_for_smoothness_range` returns exactly
eta = 0 through the early-return branches, before any bracket search. -/
theorem calibrate_baseline_early_return (caches : List SmoothnessCache)
    (target_lower target_upper tolerance eta_lower_start eta_upper_start
     eta_upper_max : ℝ) (max_iterations : ℤ) (fuel : ℕ)
    (_hne : caches ≠ [])
    (h1a : 0 ≤ target_lower) (h1b : target_upper ≤ 1) (h1c : target_lower ≤ target_upper)
    (h2 : 0 < tolerance) (h3 : 0 ≤ eta_lower_start) (h4 : 0 < eta_upper_start)
    (h5 : eta_upper_start < eta_upper_max) (h6 : 0 < max_iterations)
    (hbase : (target_lower ≤ average_smoothness_value caches 0 ∧
        average_smoothness_value caches 0 ≤ target_upper) ∨
      average_smoothness_value caches 0 < target_lower) :
    calibrate_eta_for_smoothness_range caches target_lower target_upper tolerance
      eta_lower_start eta_upper_start eta_upper_max max_iterations fuel =
        Except.ok 0 := by
  have hv1 : ¬ (target_lower < 0 ∨ 1 < target_upper ∨ target_upper < target_lower) := by
    push_neg
    exact ⟨h1a, h1b, h1c⟩
  unfold calibrate_eta_for_smoothness_range
  rw [if_neg hv1, if_neg (not_le.mpr h2), if_neg (not_lt.mpr h3), if_neg (not_le.mpr h4),
    if_neg (not_le.mpr h5), if_neg (not_le.mpr h6)]
  rcases hbase with hb | hb
  · rw [if_pos hb]
  · by_cases hb2 : target_lower ≤ average_smoothness_value caches 0 ∧
        average_smoothness_value caches 0 ≤ target_upper
    · rw [if_pos hb2]
    · rw [if_neg hb2, if_pos hb]

/-- Witness for C4: baseline smoothness 1 already inside the band [0.9, 1], so
the calibration returns eta = 0. -/
theorem calibrate_baseline_early_return_witness :
    calibrate_eta_for_smoothness_range [constant_smoothness_cache] (9/10) 1 (1/100)
      (1/1000) (7/1000) 64 20 5 = Except.ok 0 := by
  apply calibrate_baseline_early_return
  · simp [constant_smoothness_cache]
  · norm_num
  · norm_num
  · norm_num
  · norm_num
  · norm_num
  · norm_num
  · norm_num
  · norm_num
  · left
    rw [average_smoothness_constant_cache]
    norm_num

/-- When the average smoothness stays above the target upper bound at every
eta, every bisection step moves the lower bound, so the loop returns its
initial upper bound unchanged. -/
lemma bisect_upper_of_above (caches : List SmoothnessCache) (target_upper : ℝ)
    (habove : ∀ eta, target_upper < average_smoothness_value caches eta) :
    ∀ (k : ℕ) (lower_eta upper_eta : ℝ),
      bisect_upper caches target_upper k lower_eta upper_eta = upper_eta := by
  intro k
  induction k with
  | zero => intro l u; rfl
  | succ k ih =>
    intro l u
    unfold bisect_upper
    rw [if_pos (habove _)]
    exact ih _ _

/-- C2 (amended): when no eta brings the average smoothness down to
`targetUpper` (the smoothness stays above the upper edge of the band at every
eta, in particular at `eta_upper_max`), `calibrate_eta_for_smoothness_range`
does not report a convergence error: it returns successfully, and the achieved
smoothness at the returned eta is still above `targetUpper` - outside the
target band.  The final convergence check guards only the lower edge of the
band (`achieved + tolerance < targetLower`). -/
theorem calibrate_returns_out_of_band_eta (caches : List SmoothnessCache)
    (target_lower target_upper tolerance eta_lower_start eta_upper_start
     eta_upper_max : ℝ) (max_iterations : ℤ) (fuel : ℕ)
    (h1a : 0 ≤ target_lower) (h1b : target_upper ≤ 1) (h1c : target_lower ≤ target_upper)
    (h2 : 0 < tolerance) (h3 : 0 ≤ eta_lower_start) (h4 : 0 < eta_upper_start)
    (h5 : eta_upper_start < eta_upper_max) (h6 : 0 < max_iterations)
    (hlu : eta_lower_start < eta_upper_start)
    (habove : ∀ eta, target_upper < average_smoothness_value caches eta) :
    ∃ eta, calibrate_eta_for_smoothness_range caches target_lower target_upper tolerance
        eta_lower_start eta_upper_start eta_upper_max max_iterations fuel =
          Except.ok eta ∧
      target_upper < average_smoothness_value caches eta := by
  have hv1 : ¬ (target_lower < 0 ∨ 1 < target_upper ∨ target_upper < target_lower) := by
    push_neg
    exact ⟨h1a, h1b, h1c⟩
  have hnb : ¬ (target_lower ≤ average_smoothness_value caches 0 ∧
      average_smoothness_value caches 0 ≤ target_upper) :=
    fun h => absurd h.2 (not_le.mpr (habove 0))
  have hnl : ¬ average_smoothness_value caches 0 < target_lower :=
    not_lt.mpr (le_of_lt (lt_of_le_of_lt h1c (habove 0)))
  have hnarrow : ¬ average_smoothness_value caches eta_lower_start ≤ target_upper :=
    not_le.mpr (habove eta_lower_start)
  have hfin : ∀ x : ℝ,
      ¬ (average_smoothness_value caches x + tolerance < target_lower) := by
    intro x hcon
    have hx := habove x
    linarith
  have hbis := bisect_upper_of_above caches target_upper habove
  refine ⟨if eta_upper_max <
        double_upper caches target_upper eta_upper_max fuel eta_upper_start
      then eta_upper_max
      else double_upper caches target_upper eta_upper_max fuel eta_upper_start,
    ?_, habove _⟩
  unfold calibrate_eta_for_smoothness_range
  rw [if_neg hv1, if_neg (not_le.mpr h2), if_neg (not_lt.mpr h3), if_neg (not_le.mpr h4),
    if_neg (not_le.mpr h5), if_neg (not_le.mpr h6), if_neg hnb, if_neg hnl,
    if_neg (not_le.mpr hlu)]
  simp only [if_neg hnarrow, hbis, if_neg (hfin _)]

/-- Witness for C2's amended theorem at the constant-smoothness cache (its
average smoothness is 1 at every eta, above the band [1/4, 3/4]). -/
theorem calibrate_returns_out_of_band_eta_witness :
    ∃ eta, calibrate_eta_for_smoothness_range [constant_smoothness_cache] (1/4) (3/4)
        (1/10) 2 3 5 2 1 = Except.ok eta ∧
      (3/4 : ℝ) < average_smoothness_value [constant_smoothness_cache] eta := by
  exact calibrate_returns_out_of_band_eta [constant_smoothness_cache] (1/4) (3/4) (1/10)
    2 3 5 2 1 (by norm_num) (by norm_num) (by norm_num) (by norm_num) (by norm_num)
    (by norm_num) (by norm_num) (by norm_num) (by norm_num)
    (fun eta => by rw [average_smoothness_constant_cache]; norm_num)

/-- C2 counterexample: with the constant-smoothness cache (average smoothness
1 at every eta, above the band [0.2, 0.5] even at `eta_upper_max = 64`), the
calibration does not report a convergence error: it returns eta = 64 whose
achieved smoothness 1 lies outside the target band. -/
theorem calibrate_out_of_band_counterexample :
    calibrate_eta_for_smoothness_range [constant_smoothness_cache] (1/5) (1/2) (1/100)
      1 33 64 1 3 = Except.ok 64 ∧
      (1/2 : ℝ) < average_smoothness_value [constant_smoothness_cache] 64 := by
  have havg : ∀ x : ℝ, average_smoothness_value [constant_smoothness_cache] x = 1 :=
    average_smoothness_constant_cache
  constructor
  · have hdu : double_upper [constant_smoothness_cache] (1/2) 64 3 33 = 66 := by
      simp only [double_upper, havg, if_pos (by norm_num : (33:ℝ) < 64),
        if_neg (by norm_num : ¬ ((1:ℝ) ≤ 1/2)), if_neg (by norm_num : ¬ ((33:ℝ)*2 < 64))]
      norm_num
    have hbi : bisect_upper [constant_smoothness_cache] (1/2) 1 1 64 = 64 := by
      simp only [bisect_upper, havg, if_pos (by norm_num : (1:ℝ)/2 < 1)]
    unfold calibrate_eta_for_smoothness_range
    rw [if_neg (by norm_num), if_neg (by norm_num : ¬ ((1:ℝ)/100 ≤ 0)),
      if_neg (by norm_num : ¬ ((1:ℝ) < 0)), if_neg (by norm_num : ¬ ((33:ℝ) ≤ 0)),
      if_neg (by norm_num : ¬ ((64:ℝ) ≤ 33)), if_neg (by norm_num : ¬ ((1:ℤ) ≤ 0))]
    have hnb : ¬ ((1/5 : ℝ) ≤ average_smoothness_value [constant_smoothness_cache] 0 ∧
        average_smoothness_value [constant_smoothness_cache] 0 ≤ 1/2) := by
      rw [havg]
      norm_num
    have hnl : ¬ average_smoothness_value [constant_smoothness_cache] 0 < 1/5 := by
      rw [havg]
      norm_num
    have hnarrow : ¬ average_smoothness_value [constant_smoothness_cache] 1 ≤ 1/2 := by
      rw [havg]
      norm_num
    rw [if_neg hnb, if_neg hnl, if_neg (by norm_num : ¬ ((33:ℝ) ≤ 1))]
    simp only [if_neg hnarrow, Int.toNat_one, havg]
    norm_num
    rw [hdu, if_pos (by norm_num : (64:ℝ) < 66), hbi]
  · rw [havg]
    norm_num

end Topo
